import Mathlib

/-!
Shallow embedding of the PCjs MACRO-10 mini-assembler
(`src/modules/pdp10/lib/macro10.js`) and proofs about it.

JavaScript numbers are modelled as `Nat`/`Int` with explicit `% 2^w`
where the source relies on wrapping; JS sparse arrays (`aWords`,
`aFixups`) are modelled as association lists from index to value, with
iteration over the sorted set of present indices (JS `forEach` visits
array indices in ascending order and skips holes); JS `undefined`
entries are `Option.none`; thrown errors are `Except.error`.

The "debugger" host collaborator (`dbg`) is not part of the sources;
following the specification it is modelled as an abstract interface
(`Dbg`) plus a concrete executable instance for witnesses.
-/

/-- Decimal digits of a natural number, as rendered by `Str.toDec(n)`. -/
def natDec (n : Nat) : String := toString n

/-- Message built by `Macro10.error(sError)` (macro10.js line 908):
the thrown message is `"error" + (nLine ? " at line " + nLine : "") + ": " + sError`. -/
def m10error (nLine : Nat) (sError : String) : String :=
  "error" ++ (if nLine ≠ 0 then " at line " ++ natDec nLine else "") ++ ": " ++ sError

/-- Modelled from the spec: the host service `dbg.truncate(n, bits, unsigned)`
("truncates a signed integer to N bits"); with `unsigned` set the result is the
value reduced into `[0, 2^bits)`.  The debugger sources are not under `src/`. -/
def dbgTruncate (v : Int) (bits : Nat) : Nat :=
  (v % ((2 : Int) ^ bits)).toNat

/-- JavaScript `ToInt32`: reduce modulo `2^32` and reinterpret as a signed
32-bit value. -/
def toInt32 (n : Nat) : Int :=
  let m : Nat := n % 2 ^ 32
  if m < 2 ^ 31 then (m : Int) else (m : Int) - 2 ^ 32

/-- JavaScript `x | y` on two non-negative numbers: both operands pass through
`ToInt32`, the 32-bit patterns are OR-ed, and the result is read back signed. -/
def jsOr32 (x y : Nat) : Int :=
  let r : Nat := (x % 2 ^ 32) ||| (y % 2 ^ 32)
  if r < 2 ^ 31 then (r : Int) else (r : Int) - 2 ^ 32

/-- Lookup in an association list (models reading a JS object property /
sparse-array element; an absent key reads as `undefined`, i.e. `none`). -/
def agetA {α β : Type} [BEq α] (l : List (α × β)) (k : α) : Option β :=
  (l.find? (fun p => p.1 == k)).map (fun p => p.2)

/-- Functional update of an association list (models writing a JS object
property / sparse-array element). -/
def asetA {α β : Type} [BEq α] (l : List (α × β)) (k : α) (v : β) : List (α × β) :=
  (k, v) :: l.filter (fun p => !(p.1 == k))

/-- Insert a number into a sorted list (helper for iterating a sparse array
in ascending index order). -/
def insNat (x : Nat) : List Nat → List Nat
  | [] => [x]
  | y :: t => if x ≤ y then x :: y :: t else y :: insNat x t

/-- Sort a list of naturals ascending. -/
def sortNat (l : List Nat) : List Nat := l.foldr insNat []

/-- The present indices of a modelled sparse array, in ascending order
(the order JS `Array.prototype.forEach` visits them). -/
def sortedKeys {β : Type} (l : List (Nat × β)) : List Nat :=
  sortNat (l.map (fun p => p.1)).dedup

/-- Modelled from the spec: the host expression parser accepts at least plain
numerals (MACRO-10's default radix is octal); used only to instantiate the
abstract host for concrete witnesses. -/
def parseOctal (s : String) : Option Int :=
  let l := s.data
  if l ≠ [] ∧ l.all (fun c => 48 ≤ c.toNat && c.toNat ≤ 55) then
    some ((l.foldl (fun acc c => acc * 8 + (c.toNat - 48)) 0 : Nat) : Int)
  else none

/-- Modelled from the spec: the external "debugger" host interface the
assembler relies on (`dbg.parseExpression`, `dbg.toStrBase(n, -1)`,
`dbg.sUndefined`); the debugger's own sources are not under `src/`. -/
structure Dbg where
  parseExp : String → Bool → Option Int
  toStrBase : Nat → String
  sUndefined : Option String

/-- Modelled from the spec: a concrete executable host instance (octal
numerals, octal rendering, no pending-undefined marker), for witnesses. -/
def specDbg : Dbg :=
  { parseExp := fun s _ => parseOctal s
    toStrBase := fun n => String.mk (Nat.toDigits 8 n)
    sUndefined := none }

/-- An element of `tblSymbols` (macro10.js `Sym` typedef). -/
structure MSym where
  name : String
  value : Int
  nType : Nat
  nLine : Nat
  deriving DecidableEq, Repr

/-- An element of `aLiterals` (macro10.js `Lit` typedef): the captured words
and fixups of one literal scope. -/
structure MLit where
  name : String
  aWords : List (Nat × Nat)
  aFixups : List (Nat × String)
  deriving DecidableEq, Repr

/-- An element of `stackScopes` (macro10.js `Scope` typedef): the saved output
vector, fixups, location counter, scope location and line. -/
structure MScope where
  name : Option String
  aWords : List (Nat × Nat)
  aFixups : List (Nat × String)
  nLocation : Nat
  nLocationScope : Option Nat
  nLine : Nat
  deriving DecidableEq, Repr

/-- The mutable assembler state of the `Macro10` class that the claims touch.
`nLocationScope = none` models the JS sentinel value `-1`; `printed` collects
`println` output and `nError` the driver's error code. -/
structure MState where
  aWords : List (Nat × Nat)
  aFixups : List (Nat × String)
  nLocation : Nat
  nLocationScope : Option Nat
  stackScopes : List MScope
  aLiterals : List MLit
  tblSymbols : List (String × MSym)
  hostVars : List (String × Int)
  printed : List String
  nLine : Nat
  nError : Int
  deriving DecidableEq, Repr

/-- The empty starting state (fresh `Macro10` with load address 0, positioned
at source line 1). -/
def emptyM : MState :=
  { aWords := [], aFixups := [], nLocation := 0, nLocationScope := none,
    stackScopes := [], aLiterals := [], tblSymbols := [], hostVars := [],
    printed := [], nLine := 1, nError := 0 }

/-- SYMTYPE.LABEL flag (macro10.js line 1670). -/
def SYMTYPE_LABEL : Nat := 1
/-- SYMTYPE.PRIVATE flag. -/
def SYMTYPE_PRIVATE : Nat := 2
/-- SYMTYPE.INTERNAL flag. -/
def SYMTYPE_INTERNAL : Nat := 4

/-- The double-comma recogniser of `Macro10.parseExpression` (line 998):
`sOperand.match(/^([^,]*),,([^,]*)$/)`.  The greedy `[^,]*` takes everything
up to the first comma; a second comma must follow at once and the remainder
must itself be comma-free. -/
def commaSplitL (s : List Char) : Option (List Char × List Char) :=
  let l := s.takeWhile (fun c => !(c == ','))
  match s.dropWhile (fun c => !(c == ',')) with
  | c1 :: c2 :: r =>
    if c1 == ',' && c2 == ',' && !(r.contains ',') then some (l, r) else none
  | _ => none

/-- One scanning step of the global regex replacement
`sOperand.replace(/SIXBIT\s*(\S)(.*?)\1/g, "'$2'")` (and the analogous ASCII
rewrite) in `Macro10.parseExpression` (line 1008): find the first occurrence
of the delimiter character with no line break before it. -/
def findCharNoNL (d : Char) : List Char → Option (List Char × List Char)
  | [] => none
  | c :: t =>
    if c == d then some ([], t)
    else if c == '\n' ∨ c == '\r' then none
    else (findCharNoNL d t).map (fun p => (c :: p.1, p.2))

/-- JS regex `\s` on the ASCII characters that can occur in operand text. -/
def isJSspace (c : Char) : Bool :=
  c == ' ' || c == '\t' || c == '\n' || c == '\r' || c.toNat == 11 || c.toNat == 12

/-- The global regex replacement
`s.replace(/KEY\s*(\S)(.*?)\1/g, q + "$2" + q)` used by
`Macro10.parseExpression` (line 1008) to turn embedded `SIXBIT /x/` and
`ASCII /x/` forms into host-readable quoted forms.  The scan is left to
right; on a failed match the engine advances one character.  `fuel` bounds
the recursion; any `fuel ≥` the input length computes the full scan. -/
def rewriteEmb (key : List Char) (q : Char) : Nat → List Char → List Char
  | 0, s => s
  | _ + 1, [] => []
  | fuel + 1, c :: rest =>
    if key.isPrefixOf (c :: rest) then
      match ((c :: rest).drop key.length).dropWhile isJSspace with
      | [] => c :: rewriteEmb key q fuel rest
      | d :: tail =>
        match findCharNoNL d tail with
        | some (inner, rest2) => q :: (inner ++ q :: rewriteEmb key q fuel rest2)
        | none => c :: rewriteEmb key q fuel rest
    else c :: rewriteEmb key q fuel rest

/-- Both embedded-string rewrites of `Macro10.parseExpression` (line 1008),
in source order: first `SIXBIT` to a single-quoted form, then `ASCII` to a
double-quoted form. -/
def rewriteSixbitAscii (s : List Char) : List Char :=
  let s1 := rewriteEmb "SIXBIT".data (Char.ofNat 39) (s.length + 1) s
  rewriteEmb "ASCII".data (Char.ofNat 34) (s1.length + 1) s1

/-- The global regex replacement
`s.replace(/\.([^0-9]|$)/g, render + "$1")` of `Macro10.parseExpression`
(line 1020): every period NOT followed by a decimal digit is replaced by the
rendering `r` of the current location; the captured following character is
re-emitted and the scan resumes after it, so it is never itself examined as
the start of a match. -/
def periodReplaceL (r : List Char) : List Char → List Char
  | [] => []
  | c :: t =>
    if c == '.' then
      match t with
      | [] => r
      | d :: t2 => if d.isDigit then '.' :: periodReplaceL r (d :: t2)
                   else r ++ d :: periodReplaceL r t2
    else c :: periodReplaceL r t

/-- The non-double-comma branch of `Macro10.parseExpression`
(lines 999-1023): default the location (`nLocationScope` when inside a
scope, else `nLocation`), rewrite embedded SIXBIT/ASCII forms, substitute
the current location for periods, and hand the text to the host parser;
a host failure raises `"error parsing expression: ..."` via `error()`. -/
def m10base (d : Dbg) (st : MState) (fPass1 : Bool) (nLocOpt : Option Nat)
    (s : List Char) : Except String Int :=
  let nLoc := match nLocOpt with
    | some n => n
    | none => match st.nLocationScope with
      | some k => k
      | none => st.nLocation
  let s1 := rewriteSixbitAscii s
  let s2 := periodReplaceL (d.toStrBase nLoc).data s1
  match d.parseExp (String.mk s2) fPass1 with
  | some v => .ok v
  | none => .error (m10error st.nLine ("error parsing expression: " ++ String.mk s1))

/-- `Macro10.parseExpression(sOperand, fPass1, nLocation)` (lines 991-1037)
on a character list.  The double-comma form recurses on the two halves (an
empty half contributes the value 0 without a recursive call) and combines
them as `truncate(L,18,unsigned) * 2^18 + truncate(R,18,unsigned)`.  `fuel`
bounds the recursion; both halves produced by the regex are comma-free, so
any `fuel ≥ 2` computes the source's full recursion. -/
def m10parseF (d : Dbg) (st : MState) (fPass1 : Bool) :
    Nat → Option Nat → List Char → Except String Int
  | 0, _, s => .error (m10error st.nLine ("error parsing expression: " ++ String.mk s))
  | fuel + 1, nLocOpt, s =>
    match commaSplitL s with
    | none => m10base d st fPass1 nLocOpt s
    | some (l, r) => do
      let wLeft ← if l.isEmpty then pure 0 else m10parseF d st fPass1 fuel nLocOpt l
      let wRight ← if r.isEmpty then pure 0 else m10parseF d st fPass1 fuel nLocOpt r
      pure ((dbgTruncate wLeft 18 * 2 ^ 18 + dbgTruncate wRight 18 : Nat) : Int)

/-- `Macro10.parseExpression` on a string, with enough fuel for the full
recursion of the source. -/
def m10parse (d : Dbg) (st : MState) (s : String) (fPass1 : Bool)
    (nLocOpt : Option Nat) : Except String Int :=
  m10parseF d st fPass1 (s.data.length + 2) nLocOpt s.data

/-- `Macro10.genWord(value, sFixup)` (lines 1629-1634): store the value
truncated to 36 bits at the current location, record the fixup when one is
given (JS `sFixup != null`), and advance the location counter.  The
out-of-range warning println is not tracked. -/
def genWord (st : MState) (value : Int) (sFixup : Option String) : MState :=
  { st with
    aWords := asetA st.aWords st.nLocation (dbgTruncate value 36)
    aFixups := match sFixup with
      | some f => asetA st.aFixups st.nLocation f
      | none => st.aFixups
    nLocation := st.nLocation + 1 }

/-- The name normalisation of `Macro10.addSymbol` (line 1456):
`name.toUpperCase().substr(0, 6)`, on the ASCII identifiers MACRO-10
symbol names consist of. -/
def normSymName (s : String) : String :=
  String.mk ((s.data.map Char.toUpper).take 6)

/-- `Macro10.addSymbol(name, value, nType)` (lines 1454-1478): uppercase and
truncate the name to six characters; defining a LABEL while any symbol of
that name exists is a fatal error; otherwise a string value is parsed as an
expression, the record is written (overwriting any existing one), and the
host variable table is updated via `dbg.setVariable`. -/
def addSymbol (d : Dbg) (st : MState) (name : String) (value : Sum Int String)
    (nType : Nat) : Except String MState :=
  let nm := normSymName name
  if nType &&& SYMTYPE_LABEL ≠ 0 ∧ (agetA st.tblSymbols nm).isSome then
    .error (m10error st.nLine ("label " ++ nm ++ " redefined"))
  else do
    let v : Int ← match value with
      | .inl n => pure n
      | .inr s => m10parse d st s false none
    pure { st with
      tblSymbols := asetA st.tblSymbols nm
        { name := nm, value := v, nType := nType, nLine := st.nLine }
      hostVars := asetA st.hostVars nm v }

/-- `Macro10.defEXP(sOperands)` (lines 1508-1516): parse the operand (pass-1
mode) and emit one word carrying `dbg.sUndefined` as its fixup.  In the
source a parse failure throws inside `parseExpression` itself, which the
`Except` bind models. -/
def defEXP (d : Dbg) (st : MState) (sOperands : String) : Except String MState := do
  let w ← m10parse d st sOperands true none
  pure (genWord st w d.sUndefined)

/-- JS `s.replace(",", ",,")` with a plain-string pattern: double the first
comma only. -/
def replFirstComma : List Char → List Char
  | [] => []
  | c :: t => if c == ',' then ',' :: ',' :: t else c :: replFirstComma t

/-- `Macro10.defXWD(sOperands)` (lines 1542-1545): rewrite the first comma
into a double comma and delegate to `defEXP`. -/
def defXWD (d : Dbg) (st : MState) (sOperands : String) : Except String MState :=
  defEXP d st (String.mk (replFirstComma sOperands.data))

/-- Modelled from the spec: the PDP-10 accumulator field `PDP10.OPCODE.A_FIELD`
(4 bits at positions 23-26 of the 36-bit word); `defines.js` is not under
`src/`, so the field masks follow the spec's glossary of opcode fields. -/
def A_FIELD : Nat := 0o000740000000
/-- Modelled from the spec: the PDP-10 indirect bit `PDP10.OPCODE.I_FIELD`
(1 bit at position 22). -/
def I_FIELD : Nat := 0o000020000000
/-- Modelled from the spec: the PDP-10 index field `PDP10.OPCODE.X_FIELD`
(4 bits at positions 18-21). -/
def X_FIELD : Nat := 0o000017000000
/-- Modelled from the spec: the PDP-10 address field `PDP10.OPCODE.Y_FIELD`
(18 bits at positions 0-17). -/
def Y_FIELD : Nat := 0o000000777777

/-- The OPDEF merge of `Macro10.parseMacro` (lines 749-750), exactly as the
JS engine computes it on the stored base word `w0` and the side-scope operand
word `w1`:
`this.aWords[nLocation] += (w & (A_FIELD | X_FIELD | Y_FIELD));`
`this.aWords[nLocation] |= (w & I_FIELD);`
`+=` is exact number addition, but `&` and `|=` are 32-bit operations, so
each `&` operand passes through `ToInt32` and the final `|=` reads the
accumulated word back through `ToInt32` as well. -/
def opdefMergeWord (w0 w1 : Nat) : Int :=
  jsOr32 (w0 + ((w1 % 2 ^ 32) &&& (A_FIELD ||| X_FIELD ||| Y_FIELD)))
    ((w1 % 2 ^ 32) &&& I_FIELD)

/-- The OPDEF result the specification states, read in exact 36-bit
arithmetic: `W0 + (W1 & (A|X|Y)) | (W1 & I)`. -/
def specOpdefWord (w0 w1 : Nat) : Nat :=
  (w0 + (w1 &&& (A_FIELD ||| X_FIELD ||| Y_FIELD))) ||| (w1 &&& I_FIELD)

/-- The OPDEF fixup merge of `Macro10.parseMacro` (lines 751-757): when the
operand parse produced a (truthy) fixup it is installed, or appended with a
`+` when a truthy fixup is already present. -/
def opdefJoinFixup (old newF : Option String) : Option String :=
  match newF with
  | none => old
  | some f =>
    if f = "" then old
    else match old with
      | none => some f
      | some g => if g = "" then some f else some (g ++ "+" ++ f)

/-- The three string-generating pseudo-ops dispatched to `genASCII`. -/
inductive POp where
  | ASCII
  | ASCIZ
  | SIXBIT
  deriving DecidableEq, Repr

/-- Per-character conversion inside the `genASCII` loop (lines 1602-1610):
mask to 7 bits; for SIXBIT fold lower case to upper case and then add
`0o40` and mask to 6 bits. -/
def convChar (op : POp) (c0 : Nat) : Nat :=
  let c := c0 &&& 0o177
  if op = POp.SIXBIT then
    (((if 0x61 ≤ c ∧ c ≤ 0x7A then c - 0x20 else c) + 0o40) &&& 0o77)
  else c

/-- The character loop of `Macro10.genASCII` (lines 1584-1620), carried
state `(n, w, shift)` exactly as in the source: on `n = 0` the word and
shift reset (`shift = 29`, `bits = 7`; one less bit and one more shift for
SIXBIT); each character is converted, added at the current shift, and a
word is emitted whenever the shift goes negative; a trailing partial word
is emitted as is (its low slots still zero). -/
def genASCIIgo (op : POp) : List Nat → Nat → Nat → Int → List Nat
  | [], n, w, _ => if n ≠ 0 then [w] else []
  | c0 :: t, n, w, shift =>
    let bits : Nat := if op = POp.SIXBIT then 6 else 7
    let shift0 : Int := if op = POp.SIXBIT then 30 else 29
    let w := if n = 0 then 0 else w
    let shift := if n = 0 then shift0 else shift
    let c := convChar op c0
    let w := w + c * 2 ^ shift.toNat
    let shift := shift - (bits : Int)
    if shift < 0 then w :: genASCIIgo op t 0 w shift
    else genASCIIgo op t (n + 1) w shift

/-- The character codes `genASCII` fetches: `this.sASCII.charCodeAt(i)` for
`i < cch`, where ASCIZ extends `cch` by one; the fetch one past the end
yields `NaN`, which the 7-bit mask turns into 0. -/
def codesOf (op : POp) (s : String) : List Nat :=
  s.data.map Char.toNat ++ (if op = POp.ASCIZ then [0] else [])

/-- `Macro10.genASCII()` for a collected string `sASCII` under operator
`op`: run the packing loop over the fetched character codes. -/
def genASCIIrun (op : POp) (s : String) : List Nat :=
  genASCIIgo op (codesOf op s) 0 0 0

/-- MSB-first packing of a list of character codes starting at a given
shift: the word value the spec ascribes to one output word of `genASCII`. -/
def packMSB (op : POp) : Int → List Nat → Nat
  | _, [] => 0
  | shift, c :: t =>
    convChar op c * 2 ^ shift.toNat +
      packMSB op (shift - (if op = POp.SIXBIT then 6 else 7)) t

/-- `Macro10.pushScope(name)` (lines 860-874): save the current output
vector, fixups, location, scope location and line in a frame; start fresh
`aWords`/`aFixups`; latch `nLocationScope` on the outermost push; reset the
location counter to zero. -/
def pushScope (st : MState) (name : Option String) : MState :=
  { st with
    stackScopes :=
      { name := name, aWords := st.aWords, aFixups := st.aFixups,
        nLocation := st.nLocation, nLocationScope := st.nLocationScope,
        nLine := st.nLine } :: st.stackScopes
    aWords := []
    aFixups := []
    nLocationScope := match st.nLocationScope with
      | none => some st.nLocation
      | some k => some k
    nLocation := 0 }

/-- `Macro10.popScope()` (lines 881-897): popping with an empty stack is a
fatal "scope nesting error"; a named scope pushes its captured words and
fixups onto `aLiterals`; the frame's saved fields are restored; returning
to an empty stack with a latched `nLocationScope` is a fatal
"scope restore error". -/
def popScope (st : MState) : Except String MState :=
  match st.stackScopes with
  | [] => .error (m10error st.nLine "scope nesting error")
  | fr :: rest =>
    let st1 := match fr.name with
      | some nm =>
        { st with aLiterals := st.aLiterals ++
            [({ name := nm, aWords := st.aWords, aFixups := st.aFixups } : MLit)] }
      | none => st
    let st2 := { st1 with
      aWords := fr.aWords, aFixups := fr.aFixups, nLocation := fr.nLocation,
      nLocationScope := fr.nLocationScope, stackScopes := rest }
    if rest = [] ∧ fr.nLocationScope ≠ none then
      .error (m10error st2.nLine "scope restore error")
    else .ok st2

/-- End-of-input scope check of `Macro10.parseResources` (lines 393-395):
a non-empty scope stack is a fatal error naming the line of the frame at
the bottom of the stack (JS `stackScopes[0]`, the oldest push). -/
def scopeEndCheck (st : MState) : Except String Unit :=
  match h : st.stackScopes with
  | [] => .ok ()
  | fr :: rest =>
    .error (m10error st.nLine
      ("open scope from line " ++ natDec ((fr :: rest).getLast (by simp)).nLine))

/-- Operations that can run between a push and its matching pop while a
literal or OPDEF side scope is active: word emission, or a nested
push/pop pair. -/
inductive SOp where
  | push (name : Option String)
  | pop
  | emit (v : Int) (fix : Option String)
  deriving Repr

/-- Execute one scope-level operation. -/
def mstep : SOp → MState → Except String MState
  | .push n, st => .ok (pushScope st n)
  | .pop, st => popScope st
  | .emit v f, st => .ok (genWord st v f)

/-- Execute a list of scope-level operations in order. -/
def mrun : List SOp → MState → Except String MState
  | [], st => .ok st
  | op :: t, st => (mstep op st).bind (mrun t)

/-- Balanced operation sequences: pushes and pops pair up like brackets. -/
inductive BalOps : List SOp → Prop where
  | nil : BalOps []
  | emit (v : Int) (f : Option String) (t : List SOp) :
    BalOps t → BalOps (SOp.emit v f :: t)
  | nest (n : Option String) (inner outer : List SOp) :
    BalOps inner → BalOps outer →
    BalOps (SOp.push n :: inner ++ SOp.pop :: outer)

/-- The inner comparison loop of the literal-collapsing search
(`Macro10.parseResources`, lines 447-457): position `n` of the candidate
literal matches when the word at pool location `loc + n` equals the
literal's `n`-th word (JS `!==` on a possibly-absent array slot) and the
literal's fixup at `n` equals — exactly as the source indexes it — the
pool fixup at `loc` (JS loose `!=`, under which two absent slots are
equal). -/
def litMatchGo (st : MState) (litFix : List (Nat × String)) (loc : Nat) :
    List Nat → Nat → Bool
  | [], _ => true
  | w :: t, n =>
    (agetA st.aWords (loc + n) == some w) &&
    (agetA litFix n == agetA st.aFixups loc) &&
    litMatchGo st litFix loc t (n + 1)

/-- Whether the candidate pool block starting at `loc` matches the literal
(words `ws`, fixups `litFix`) under the source's comparison. -/
def litMatchAt (st : MState) (litFix : List (Nat × String)) (ws : List Nat)
    (loc : Nat) : Bool :=
  litMatchGo st litFix loc ws 0

/-- One iteration of the literal-materialisation loop of
`Macro10.parseResources` (lines 430-471): repack the literal's sparse words
into a dense zero-based list; when they were contiguous, brute-force search
the pool `[L0, nLocation)` for a matching block and, on a hit, define the
literal's name as a LABEL at the block (collapse, nothing emitted);
otherwise define the name at the live location and emit the words and
fixups verbatim. -/
def processLit (d : Dbg) (L0 : Nat) (st : MState) (lit : MLit) :
    Except String MState :=
  let idxs := sortedKeys lit.aWords
  let ws := idxs.foldl
    (fun acc i => if i = acc.length then acc ++ [(agetA lit.aWords i).getD 0] else acc) []
  let nWords := idxs.length
  let found : Option Nat :=
    if nWords = ws.length then
      (List.range' L0 (st.nLocation + 1 - (L0 + nWords))).find?
        (fun loc => litMatchAt st lit.aFixups ws loc)
    else none
  match found with
  | some loc => addSymbol d st lit.name (Sum.inl (loc : Int)) SYMTYPE_LABEL
  | none => do
    let st1 ← addSymbol d st lit.name (Sum.inl (st.nLocation : Int)) SYMTYPE_LABEL
    pure (idxs.foldl
      (fun s i => genWord s ((agetA lit.aWords i).getD 0 : Int) (agetA lit.aFixups i)) st1)

/-- The literal-materialisation phase of `Macro10.parseResources`
(lines 400-471): remember `nLocationLiterals` (the start of the literal
pool) and process every captured literal in order. -/
def processLiterals (d : Dbg) (st : MState) : Except String MState :=
  let L0 := st.nLocation
  st.aLiterals.foldlM (processLit d L0) st

/-- The driver skeleton of `Macro10.parseResources` (lines 371, 502-507)
around an arbitrary main-pass body `f`: snapshot and clear the host
variable table (`dbg.resetVariables()`, modelled from the spec as returning
the current table and emptying it), run the body, on a thrown error print
its message and set the error code to `-1`, and in every case restore the
host variable table (`dbg.restoreVariables(a)`) before returning the error
code.  State reached inside `f` before a throw is not tracked. -/
def runDriver (f : MState → Except String MState) (st : MState) : MState × Int :=
  let snap := st.hostVars
  let st1 := { st with hostVars := [] }
  match f st1 with
  | .ok st2 => ({ st2 with hostVars := snap }, st2.nError)
  | .error msg =>
    ({ st1 with printed := st1.printed ++ [msg], nError := -1, hostVars := snap }, -1)

/-- A captured two-word literal whose second word carries fixup "X"
(e.g. the body parse left a deferred symbolic term on its second word). -/
def litA1 : MLit := { name := "?00001", aWords := [(0, 1), (1, 2)], aFixups := [(1, "X")] }

/-- A second literal with exactly the same words and fixups as `litA1`. -/
def litA2 : MLit := { name := "?00002", aWords := [(0, 1), (1, 2)], aFixups := [(1, "X")] }

/-- A captured two-word literal with fixups "X" and "Y". -/
def litB1 : MLit := { name := "?00001", aWords := [(0, 1), (1, 2)], aFixups := [(0, "X"), (1, "Y")] }

/-- A literal with the same words as `litB1` but a different fixup ("X"
instead of "Y") on its second word: a distinct literal. -/
def litB2 : MLit := { name := "?00002", aWords := [(0, 1), (1, 2)], aFixups := [(0, "X"), (1, "X")] }

/-- A state whose symbol table already holds a symbol `B` (as left by a
line `B: 0`). -/
def c4wState : MState :=
  { emptyM with tblSymbols := [("B", { name := "B", value := 0, nType := SYMTYPE_LABEL, nLine := 1 })] }

/-- Decidable equality of `Except` results, for evaluating the embedding on
concrete inputs. -/
instance exceptDecEq {ε α : Type} [DecidableEq ε] [DecidableEq α] :
    DecidableEq (Except ε α) := fun x y =>
  match x, y with
  | .ok a, .ok b =>
    if h : a = b then isTrue (by rw [h]) else isFalse (by intro hc; cases hc; exact h rfl)
  | .error a, .error b =>
    if h : a = b then isTrue (by rw [h]) else isFalse (by intro hc; cases hc; exact h rfl)
  | .ok _, .error _ => isFalse (by intro hc; cases hc)
  | .error _, .ok _ => isFalse (by intro hc; cases hc)

/-- Claim C1: the literal-collapsing pass was specified to collapse a
literal onto a previously emitted block exactly when the words AND the
per-position fixup strings match, so that identical literals share one
address and distinct literals are never merged.  The code compares each
literal fixup against the pool fixup at the candidate block's FIRST
location (`this.aFixups[nLocation]` instead of `nLocation + n`, line 456),
so two identical two-word literals whose second word carries a fixup are
NOT collapsed (the second is defined at location 2 and two fresh words are
emitted), while two distinct literals that differ in their second fixup
ARE collapsed onto one address. -/
theorem claimC1_literalCollapse :
    litA1.aWords = litA2.aWords ∧ litA1.aFixups = litA2.aFixups ∧
    ((processLiterals specDbg { emptyM with aLiterals := [litA1, litA2] }).map
        (fun st => ((agetA st.tblSymbols "?00002").map MSym.value, st.nLocation)) =
      .ok (some 2, 4)) ∧
    litB1.aWords = litB2.aWords ∧ litB1.aFixups ≠ litB2.aFixups ∧
    ((processLiterals specDbg { emptyM with aLiterals := [litB1, litB2] }).map
        (fun st => ((agetA st.tblSymbols "?00002").map MSym.value, st.nLocation)) =
      .ok (some 0, 2)) := by
  refine ⟨rfl, rfl, by decide, rfl, by decide, by decide⟩

/-- Claim C3: the specified OPDEF merge is
`W0 + (W1 & (A|X|Y)) | (W1 & I)` on full 36-bit words, but the source
computes the `|=` through JavaScript's 32-bit `ToInt32` coercion; on a base
word `W0 = 2^34` (any opcode with bits above 31, e.g. `MOVE`) and operand
word `W1 = 0` the code stores 0 where the specified formula keeps `2^34`.
The fixup part of the claim matches the code: the operand fixup is
installed, or joined onto an existing one with `+`. -/
theorem claimC3_opdefMerge :
    opdefMergeWord (2 ^ 34) 0 = 0 ∧
    specOpdefWord (2 ^ 34) 0 = 2 ^ 34 ∧
    ((0 : Int) ≠ ((2 ^ 34 : Nat) : Int)) ∧
    opdefJoinFixup none (some "B") = some "B" ∧
    opdefJoinFixup (some "A") (some "B") = some "A+B" := by
  refine ⟨by decide, by decide, by decide, by decide, by decide⟩

/-- Looking up the key just written into an association list yields the new
value. -/
theorem agetA_asetA_self {α β : Type} [BEq α] [LawfulBEq α]
    (l : List (α × β)) (k : α) (v : β) : agetA (asetA l k v) k = some v := by
  simp [agetA, asetA, List.find?]

/-- Claim C4: defining a LABEL when a symbol of that (normalised) name is
already in the symbol table raises the fatal "label NAME redefined" error
— so `A: 0` followed by `A: 0` fails — whereas re-assigning a non-label
symbol overwrites the existing record's value, type and line without
error. -/
theorem claimC4_labelRedefined :
    (∀ (d : Dbg) (st : MState) (name : String) (value : Sum Int String) (nType : Nat),
        nType &&& SYMTYPE_LABEL ≠ 0 →
        (agetA st.tblSymbols (normSymName name)).isSome = true →
        addSymbol d st name value nType =
          .error (m10error st.nLine ("label " ++ normSymName name ++ " redefined"))) ∧
    (∀ (d : Dbg) (st : MState) (name : String) (v : Int) (nType : Nat) (old : MSym),
        nType &&& SYMTYPE_LABEL = 0 →
        agetA st.tblSymbols (normSymName name) = some old →
        ∃ st', addSymbol d st name (Sum.inl v) nType = .ok st' ∧
          agetA st'.tblSymbols (normSymName name) =
            some { name := normSymName name, value := v, nType := nType, nLine := st.nLine } ∧
          st'.aWords = st.aWords ∧ st'.nLocation = st.nLocation) ∧
    ((addSymbol specDbg emptyM "A" (Sum.inl 0) SYMTYPE_LABEL).bind
        (fun st1 => addSymbol specDbg { st1 with nLine := 2 } "A" (Sum.inl 0) SYMTYPE_LABEL) =
      .error "error at line 2: label A redefined") := by
  refine ⟨?_, ?_, by decide⟩
  · intro d st name value nType h1 h2
    simp [addSymbol, h1, h2]
  · intro d st name v nType old h1 h2
    have h : addSymbol d st name (Sum.inl v) nType = .ok { st with
        tblSymbols := asetA st.tblSymbols (normSymName name)
          { name := normSymName name, value := v, nType := nType, nLine := st.nLine }
        hostVars := asetA st.hostVars (normSymName name) v } := by
      simp [addSymbol, h1]
      rfl
    exact ⟨_, h, agetA_asetA_self st.tblSymbols (normSymName name) _, rfl, rfl⟩

/-- Claim C4 witness: with symbol `B` already defined, adding label `B`
raises the redefinition error. -/
theorem claimC4_witness :
    addSymbol specDbg c4wState "B" (Sum.inl 5) SYMTYPE_LABEL =
      .error (m10error c4wState.nLine ("label " ++ normSymName "B" ++ " redefined")) :=
  claimC4_labelRedefined.1 specDbg c4wState "B" (Sum.inl 5) SYMTYPE_LABEL
    (by decide) (by decide)

/-- Claim C5: every fatal error message has the form "error at line N: ..."
(the message builder produces exactly that form whenever a source line has
been reached, and the line counter is advanced before any line is parsed);
the driver catches a thrown error, prints its message and returns -1; and
on every run, success or error, the host variable table is restored to its
pre-assembly snapshot before the driver returns. -/
theorem claimC5_errorsAndRestore :
    (∀ (n : Nat) (s : String), 1 ≤ n →
        m10error n s = "error at line " ++ natDec n ++ ": " ++ s) ∧
    (∀ (f : MState → Except String MState) (st : MState) (msg : String),
        f { st with hostVars := [] } = .error msg →
        (runDriver f st).2 = -1 ∧ msg ∈ ((runDriver f st).1).printed) ∧
    (∀ (f : MState → Except String MState) (st : MState),
        ((runDriver f st).1).hostVars = st.hostVars) := by
  refine ⟨?_, ?_, ?_⟩
  · intro n s hn
    have hne : n ≠ 0 := by omega
    have h1 : ("error" : String) ++ " at line " = "error at line " := by decide
    rw [m10error, if_pos hne]
    simp [String.append_assoc]
    rw [← String.append_assoc, h1]
  · intro f st msg h
    rw [runDriver, h]
    simp
  · intro f st
    rw [runDriver]
    cases h : f { st with hostVars := [] } <;> simp

/-- Claim C5 witness: a body that throws "boom" makes the driver return
-1 and print the message, and the message builder at line 3 yields the
specified form. -/
theorem claimC5_witness :
    m10error 3 "boom" = "error at line " ++ natDec 3 ++ ": " ++ "boom" ∧
    (runDriver (fun _ => .error "boom") emptyM).2 = -1 ∧
    "boom" ∈ ((runDriver (fun _ => .error "boom") emptyM).1).printed ∧
    ((runDriver (fun _ => .error "boom") emptyM).1).hostVars = emptyM.hostVars :=
  ⟨claimC5_errorsAndRestore.1 3 "boom" (by decide),
   (claimC5_errorsAndRestore.2.1 (fun _ => .error "boom") emptyM "boom" rfl).1,
   (claimC5_errorsAndRestore.2.1 (fun _ => .error "boom") emptyM "boom" rfl).2,
   claimC5_errorsAndRestore.2.2 (fun _ => .error "boom") emptyM⟩


/-- A character of a list avoiding `a` tests `== a` false. -/
theorem beq_false_of_not_mem {l : List Char} {a : Char} (h : a ∉ l) :
    ∀ x ∈ l, (x == a) = false := by
  intro x hx
  exact beq_eq_false_iff_ne.mpr (ne_of_mem_of_not_mem hx h)

/-- Doubling the first comma of `a ++ "," ++ b` when `a` is comma-free
yields `a ++ ",," ++ b`. -/
theorem replFirstComma_append (a b : List Char) (h : ',' ∉ a) :
    replFirstComma (a ++ ',' :: b) = a ++ ',' :: ',' :: b := by
  induction a with
  | nil => simp [replFirstComma]
  | cons c t ih =>
    have hc : (c == ',') = false := beq_false_of_not_mem h c (by simp)
    simp only [List.cons_append, replFirstComma, hc, Bool.false_eq_true, if_false,
      List.append_eq]
    rw [ih (by simp at h; exact h.2)]

/-- `takeWhile` passes over a prefix whose elements all satisfy the
predicate. -/
theorem takeWhile_append_all {α : Type} (p : α → Bool) (l r : List α)
    (h : ∀ x ∈ l, p x = true) :
    (l ++ r).takeWhile p = l ++ r.takeWhile p := by
  induction l with
  | nil => simp
  | cons c t ih =>
    have hc : p c = true := h c (by simp)
    simp only [List.cons_append, List.takeWhile_cons, hc, if_true]
    rw [ih (fun x hx => h x (by simp [hx]))]

/-- `dropWhile` drops a prefix whose elements all satisfy the predicate. -/
theorem dropWhile_append_all {α : Type} (p : α → Bool) (l r : List α)
    (h : ∀ x ∈ l, p x = true) :
    (l ++ r).dropWhile p = r.dropWhile p := by
  induction l with
  | nil => simp
  | cons c t ih =>
    have hc : p c = true := h c (by simp)
    simp only [List.cons_append, List.dropWhile_cons, hc, if_true]
    exact ih (fun x hx => h x (by simp [hx]))

/-- A comma-free operand is not split by the double-comma regex. -/
theorem commaSplitL_none (s : List Char) (h : ',' ∉ s) :
    commaSplitL s = none := by
  have hd : s.dropWhile (fun c => !(c == ',')) = [] := by
    rw [List.dropWhile_eq_nil_iff]
    intro x hx
    simp [beq_false_of_not_mem h x hx]
  simp [commaSplitL, hd]


/-- The double-comma regex splits `l ++ ",," ++ r` into `(l, r)` when both
halves are comma-free. -/
theorem commaSplitL_pair (l r : List Char) (hl : ',' ∉ l) (hr : ',' ∉ r) :
    commaSplitL (l ++ ',' :: ',' :: r) = some (l, r) := by
  have hpred : ∀ x ∈ l, (fun c => !(c == ',')) x = true := by
    intro x hx
    simp [beq_false_of_not_mem hl x hx]
  have ht : (l ++ ',' :: ',' :: r).takeWhile (fun c => !(c == ',')) = l := by
    rw [takeWhile_append_all _ _ _ hpred]
    simp [List.takeWhile_cons]
  have hd : (l ++ ',' :: ',' :: r).dropWhile (fun c => !(c == ',')) = ',' :: ',' :: r := by
    rw [dropWhile_append_all _ _ _ hpred]
    simp [List.dropWhile_cons]
  simp [commaSplitL, ht, hd, hr]

/-- The halves produced by the double-comma regex are comma-free. -/
theorem commaSplitL_parts (s l r : List Char) (h : commaSplitL s = some (l, r)) :
    ',' ∉ l ∧ ',' ∉ r := by
  unfold commaSplitL at h
  rcases hm : s.dropWhile (fun c => !(c == ',')) with _ | ⟨c1, tl⟩
  · rw [hm] at h; cases h
  · rcases tl with _ | ⟨c2, rr⟩
    · rw [hm] at h; cases h
    · rw [hm] at h
      dsimp only at h
      by_cases hc : (c1 == ',' && c2 == ',' && !(rr.contains ',')) = true
      · rw [if_pos hc] at h
        have h2 : (s.takeWhile (fun c => !(c == ',')), rr) = (l, r) := by
          injection h
        have h3 : s.takeWhile (fun c => !(c == ',')) = l := congrArg Prod.fst h2
        have h4 : rr = r := congrArg Prod.snd h2
        subst h3
        subst h4
        constructor
        · intro hmem
          have hp := List.mem_takeWhile_imp hmem
          simp at hp
        · simp only [Bool.and_eq_true, Bool.not_eq_true'] at hc
          intro hmem
          rw [← List.elem_iff] at hmem
          rw [show List.elem ',' rr = rr.contains ',' from rfl, hc.2] at hmem
          cases hmem
      · rw [if_neg hc] at h; cases h

/-- With any remaining fuel, an operand the double-comma regex does not
split is handed to the base evaluator. -/
theorem m10parseF_base_eq (d : Dbg) (st : MState) (fP : Bool) (n : Nat)
    (o : Option Nat) (s : List Char) (h : commaSplitL s = none) :
    m10parseF d st fP (n + 1) o s = m10base d st fP o s := by
  simp [m10parseF, h]

/-- The source recursion of `parseExpression` has depth at most two (both
regex halves are comma-free), so any fuel of at least 2 computes the same
result. -/
theorem m10parseF_fuel (d : Dbg) (st : MState) (fP : Bool) (o : Option Nat)
    (s : List Char) (n m : Nat) (hn : 2 ≤ n) (hm : 2 ≤ m) :
    m10parseF d st fP n o s = m10parseF d st fP m o s := by
  obtain ⟨n', rfl⟩ : ∃ k, n = k + 2 := ⟨n - 2, by omega⟩
  obtain ⟨m', rfl⟩ : ∃ k, m = k + 2 := ⟨m - 2, by omega⟩
  cases h : commaSplitL s with
  | none =>
    rw [show n' + 2 = (n' + 1) + 1 from rfl, show m' + 2 = (m' + 1) + 1 from rfl,
      m10parseF_base_eq d st fP _ o s h, m10parseF_base_eq d st fP _ o s h]
  | some p =>
    obtain ⟨l, r⟩ := p
    obtain ⟨hl, hr⟩ := commaSplitL_parts s l r h
    have hl0 : commaSplitL l = none := commaSplitL_none l hl
    have hr0 : commaSplitL r = none := commaSplitL_none r hr
    rw [show n' + 2 = (n' + 1) + 1 from rfl, show m' + 2 = (m' + 1) + 1 from rfl]
    simp only [m10parseF, h, hl0, hr0]

/-- Claim C2: for operand texts `a` (comma-free, as an operand is) and `b`,
assembling `XWD a,b` makes exactly the call `defEXP` makes on `a,,b`, so it
emits the same word and fixup; and concretely `EXP 1,,2` and `XWD 1,2` both
emit the word `(1 <<< 18) ||| 2`. -/
theorem claimC2_xwdEquiv :
    (∀ (d : Dbg) (st : MState) (a b : String), ',' ∉ a.data →
        defXWD d st (a ++ "," ++ b) = defEXP d st (a ++ ",," ++ b)) ∧
    ((defEXP specDbg emptyM "1,,2").map (fun st => agetA st.aWords 0) =
      .ok (some ((1 <<< 18) ||| 2))) ∧
    ((defXWD specDbg emptyM "1,2").map (fun st => agetA st.aWords 0) =
      .ok (some ((1 <<< 18) ||| 2))) := by
  refine ⟨?_, by decide, by decide⟩
  intro d st a b h
  unfold defXWD
  congr 1
  apply String.ext
  have hd1 : (a ++ "," ++ b).data = a.data ++ ',' :: b.data := by
    rw [String.data_append, String.data_append]
    simp
  show replFirstComma (a ++ "," ++ b).data = (a ++ ",," ++ b).data
  rw [hd1, replFirstComma_append a.data b.data h]
  rw [String.data_append, String.data_append]
  simp

/-- Unfolding of `parseExpression` on a double-comma operand: each half is
evaluated by the base evaluator (an empty half contributes 0 without a
call), and the two 18-bit truncations are combined. -/
theorem m10parseF_split (d : Dbg) (st : MState) (fP : Bool) (o : Option Nat)
    (s l r : List Char) (n : Nat) (h : commaSplitL s = some (l, r))
    (hl : ',' ∉ l) (hr : ',' ∉ r) :
    m10parseF d st fP (n + 2) o s =
      (do
        let wLeft ← if l.isEmpty then pure 0 else m10base d st fP o l
        let wRight ← if r.isEmpty then pure 0 else m10base d st fP o r
        pure ((dbgTruncate wLeft 18 * 2 ^ 18 + dbgTruncate wRight 18 : Nat) : Int)) := by
  simp only [show n + 2 = (n + 1) + 1 from rfl]
  simp only [m10parseF, h, commaSplitL_none l hl, commaSplitL_none r hr]

/-- Claim C10: in the double-comma form of `parseExpression` an empty half
is treated as 0: `,,R` evaluates to `R` truncated to 18 unsigned bits, and
`L,,` evaluates to `L` truncated to 18 unsigned bits times `2^18` (for any
comma-free, non-empty half and any host). -/
theorem claimC10_emptyHalves :
    ∀ (d : Dbg) (st : MState) (fP : Bool) (o : Option Nat) (R : String),
      ',' ∉ R.data → R ≠ "" →
      (m10parse d st (",," ++ R) fP o =
        (m10parse d st R fP o).map (fun v => ((dbgTruncate v 18 : Nat) : Int))) ∧
      (m10parse d st (R ++ ",,") fP o =
        (m10parse d st R fP o).map (fun v => ((dbgTruncate v 18 * 2 ^ 18 : Nat) : Int))) := by
  intro d st fP o R hc hne
  have hdne : R.data ≠ [] := by
    intro hh
    exact hne (String.ext (by simpa using hh))
  have hdE : R.data.isEmpty = false := by
    cases hR : R.data with
    | nil => exact absurd hR hdne
    | cons a t => simp
  have hR0 : m10parse d st R fP o = m10base d st fP o R.data := by
    unfold m10parse
    rw [show R.data.length + 2 = (R.data.length + 1) + 1 from rfl]
    exact m10parseF_base_eq d st fP _ o R.data (commaSplitL_none R.data hc)
  have htr0 : dbgTruncate 0 18 = 0 := by decide
  constructor
  · have hdat : (",," ++ R).data = [] ++ ',' :: ',' :: R.data := by
      rw [String.data_append]
      simp
    have hsplit : commaSplitL ((",," ++ R).data) = some ([], R.data) := by
      rw [hdat]
      exact commaSplitL_pair [] R.data (by simp) hc
    rw [hR0]
    conv_lhs => rw [show m10parse d st (",," ++ R) fP o =
      m10parseF d st fP ((",," ++ R).data.length + 2) o ((",," ++ R).data) from rfl]
    rw [m10parseF_split d st fP o _ [] R.data _ hsplit (by simp) hc]
    simp only [List.isEmpty_nil, if_true, hdE, Bool.false_eq_true, if_false]
    cases hb : m10base d st fP o R.data with
    | error e => simp [hb, Except.map, Except.bind]
    | ok v => simp [hb, Except.map, Except.bind, htr0]
  · have hdat : (R ++ ",,").data = R.data ++ ',' :: ',' :: [] := by
      rw [String.data_append]
    have hsplit : commaSplitL ((R ++ ",,").data) = some (R.data, []) := by
      rw [hdat]
      exact commaSplitL_pair R.data [] hc (by simp)
    rw [hR0]
    conv_lhs => rw [show m10parse d st (R ++ ",,") fP o =
      m10parseF d st fP ((R ++ ",,").data.length + 2) o ((R ++ ",,").data) from rfl]
    rw [m10parseF_split d st fP o _ R.data [] _ hsplit hc (by simp)]
    simp only [List.isEmpty_nil, if_true, hdE, Bool.false_eq_true, if_false]
    cases hb : m10base d st fP o R.data with
    | error e => simp [hb, Except.map, Except.bind]
    | ok v => simp [hb, Except.map, Except.bind, htr0]

/-- Claim C2 witness: `XWD` on the concrete operands `1,2` makes the same
call as `EXP` on `1,,2`. -/
theorem claimC2_witness :
    defXWD specDbg emptyM ("1" ++ "," ++ "2") = defEXP specDbg emptyM ("1" ++ ",," ++ "2") :=
  claimC2_xwdEquiv.1 specDbg emptyM "1" "2" (by decide)

/-- Claim C10 witness: `,,5` evaluates to 5 and `5,,` to `5 * 2^18`. -/
theorem claimC10_witness :
    m10parse specDbg emptyM (",," ++ "5") false none = .ok 5 ∧
    m10parse specDbg emptyM ("5" ++ ",,") false none = .ok (5 * 2 ^ 18) := by
  constructor
  · rw [(claimC10_emptyHalves specDbg emptyM false none "5" (by decide) (by decide)).1]
    decide
  · rw [(claimC10_emptyHalves specDbg emptyM false none "5" (by decide) (by decide)).2]
    decide

/-- Claim C6 counterexample: on the operand `..` (two adjacent periods,
neither preceding nor following a digit, with the current location
rendering as "5") the source's replacement yields `5.` — the second period
is consumed by the first match and reaches the host parser unreplaced —
while replacing every qualifying period would yield `55`. -/
theorem claimC6_counterexample :
    String.mk (periodReplaceL (specDbg.toStrBase 5).data ['.', '.']) = "5." ∧
    (periodReplaceL (specDbg.toStrBase 5).data ['.', '.']).contains '.' = true ∧
    ("5." : String) ≠ "55" := by
  refine ⟨by decide, by decide, by decide⟩

/-- Claim C6 (amended): scanning left to right, a period not followed by a
decimal digit is replaced by the rendering of the current location, with
its following character preserved but consumed by the scan (so of two
adjacent such periods only the first is replaced); a period followed by a
digit is left in place; and the location used for `.` defaults to the
enclosing scope's saved location when inside a literal/OPDEF scope, else
the live location counter. -/
theorem claimC6_periodReplacement :
    (∀ (r u v : List Char) (c : Char), '.' ∉ u → c.isDigit = false →
        periodReplaceL r (u ++ '.' :: c :: v) = u ++ r ++ c :: periodReplaceL r v) ∧
    (∀ (r u : List Char), '.' ∉ u →
        periodReplaceL r (u ++ ['.']) = u ++ r) ∧
    (∀ (r u v : List Char) (c : Char), '.' ∉ u → c.isDigit = true →
        periodReplaceL r (u ++ '.' :: c :: v) = u ++ '.' :: periodReplaceL r (c :: v)) ∧
    (∀ (d : Dbg) (st : MState) (s : String) (fP : Bool) (k : Nat),
        st.nLocationScope = some k → commaSplitL s.data = none →
        m10parse d st s fP none = m10parse d st s fP (some k)) ∧
    (∀ (d : Dbg) (st : MState) (s : String) (fP : Bool),
        st.nLocationScope = none → commaSplitL s.data = none →
        m10parse d st s fP none = m10parse d st s fP (some st.nLocation)) := by
  refine ⟨?_, ?_, ?_, ?_, ?_⟩
  · intro r u v c hu hc
    induction u with
    | nil => simp [periodReplaceL, hc]
    | cons d t ih =>
      have hd : (d == '.') = false := beq_false_of_not_mem hu d (by simp)
      rw [List.cons_append, periodReplaceL.eq_def]
      simp only [hd, Bool.false_eq_true, if_false]
      rw [ih (by simp at hu; exact hu.2)]
      simp
  · intro r u hu
    induction u with
    | nil => simp [periodReplaceL]
    | cons d t ih =>
      have hd : (d == '.') = false := beq_false_of_not_mem hu d (by simp)
      rw [List.cons_append, periodReplaceL.eq_def]
      simp only [hd, Bool.false_eq_true, if_false]
      rw [ih (by simp at hu; exact hu.2)]
      simp
  · intro r u v c hu hc
    induction u with
    | nil => simp [periodReplaceL, hc]
    | cons d t ih =>
      have hd : (d == '.') = false := beq_false_of_not_mem hu d (by simp)
      rw [List.cons_append, periodReplaceL.eq_def]
      simp only [hd, Bool.false_eq_true, if_false]
      rw [ih (by simp at hu; exact hu.2)]
      simp
  · intro d st s fP k hsc h
    unfold m10parse
    rw [show s.data.length + 2 = (s.data.length + 1) + 1 from rfl]
    rw [m10parseF_base_eq d st fP _ none s.data h, m10parseF_base_eq d st fP _ (some k) s.data h]
    simp [m10base, hsc]
  · intro d st s fP hsc h
    unfold m10parse
    rw [show s.data.length + 2 = (s.data.length + 1) + 1 from rfl]
    rw [m10parseF_base_eq d st fP _ none s.data h,
      m10parseF_base_eq d st fP _ (some st.nLocation) s.data h]
    simp [m10base, hsc]

/-- Claim C6 witness: on `a.b` with rendering `5`, the period is replaced
and the following character kept. -/
theorem claimC6_witness :
    periodReplaceL ['5'] (['a'] ++ '.' :: 'b' :: []) =
      ['a'] ++ ['5'] ++ 'b' :: periodReplaceL ['5'] [] :=
  claimC6_periodReplacement.1 ['5'] ['a'] [] 'b' (by decide) (by decide)

/-- When the per-word state is freshly reset (`n = 0`), the carried word
and shift are irrelevant: the loop resets them before use. -/
theorem genASCIIgo_resetState (op : POp) (t : List Nat) (w w' : Nat) (sh sh' : Int) :
    genASCIIgo op t 0 w sh = genASCIIgo op t 0 w' sh' := by
  cases t with
  | nil => rfl
  | cons c tt => simp [genASCIIgo]

/-- The packing loop behaves identically for the two 7-bit operators. -/
theorem genASCIIgo_op_eq (op1 op2 : POp) (h1 : op1 ≠ POp.SIXBIT) (h2 : op2 ≠ POp.SIXBIT) :
    ∀ (l : List Nat) (n w : Nat) (sh : Int),
      genASCIIgo op1 l n w sh = genASCIIgo op2 l n w sh := by
  intro l
  induction l with
  | nil => intro n w sh; rfl
  | cons c t ih =>
    intro n w sh
    rw [genASCIIgo.eq_def]
    conv_rhs => rw [genASCIIgo.eq_def]
    simp only [if_neg h1, if_neg h2, convChar]
    split <;> simp [ih]


/-- Claim C7: ASCII/ASCIZ packing places five 7-bit codes per 36-bit word,
MSB-first with one padding bit (the last code sits at shift 1); ASCIZ packs
exactly like ASCII on the string extended by one zero character; a partial
final word is emitted zero-padded; and `ASCIZ /AB/` emits exactly one word
holding the codes of 'A', 'B', 0, 0, 0. -/
theorem claimC7_ascizPacking :
    (∀ s : String, genASCIIrun POp.ASCIZ s = genASCIIrun POp.ASCII (s.push (Char.ofNat 0))) ∧
    (∀ l : List Nat, l ≠ [] → l.length ≤ 5 →
        genASCIIgo POp.ASCII l 0 0 0 = [packMSB POp.ASCII 29 l]) ∧
    (∀ (c1 c2 c3 c4 c5 : Nat) (t : List Nat),
        genASCIIgo POp.ASCII (c1 :: c2 :: c3 :: c4 :: c5 :: t) 0 0 0 =
          packMSB POp.ASCII 29 [c1, c2, c3, c4, c5] :: genASCIIgo POp.ASCII t 0 0 0) ∧
    genASCIIrun POp.ASCIZ "AB" = [65 * 2 ^ 29 + 66 * 2 ^ 22] := by
  refine ⟨?_, ?_, ?_, by decide⟩
  · intro s
    unfold genASCIIrun
    have hcodes : codesOf POp.ASCII (s.push (Char.ofNat 0)) = codesOf POp.ASCIZ s := by
      obtain ⟨l⟩ := s
      simp [codesOf, String.push]
    rw [hcodes]
    exact genASCIIgo_op_eq POp.ASCIZ POp.ASCII (by decide) (by decide) _ 0 0 0
  · intro l hne hlen
    rcases l with _ | ⟨a, _ | ⟨b, _ | ⟨c, _ | ⟨d, _ | ⟨e, rest⟩⟩⟩⟩⟩
    · exact absurd rfl hne
    · simp [genASCIIgo, packMSB]
    · simp [genASCIIgo, packMSB]
    · simp [genASCIIgo, packMSB]
      ring
    · simp [genASCIIgo, packMSB]
      ring
    · have hrest : rest = [] := by
        have h0 : rest.length = 0 := by
          simp only [List.length_cons] at hlen
          omega
        exact List.length_eq_zero.mp h0
      subst hrest
      simp [genASCIIgo, packMSB]
      ring
  · intro c1 c2 c3 c4 c5 t
    simp [genASCIIgo, packMSB]
    constructor
    · ring
    · exact genASCIIgo_resetState POp.ASCII t _ 0 _ 0

/-- Claim C7 witness: a single character packs into one zero-padded word. -/
theorem claimC7_witness :
    genASCIIgo POp.ASCII [65] 0 0 0 = [packMSB POp.ASCII 29 [65]] :=
  claimC7_ascizPacking.2.1 [65] (by decide) (by decide)

/-- Claim C8: SIXBIT packing folds lower case to upper case before adding
`0o40` and masking to 6 bits, and packs six codes per word MSB-first, so
`SIXBIT /ab/` places `('A'+0o40) & 0o77` and `('B'+0o40) & 0o77` in the two
top 6-bit slots of the emitted word. -/
theorem claimC8_sixbitPacking :
    (∀ c : Nat, 0x61 ≤ c → c ≤ 0x7A →
        convChar POp.SIXBIT c = ((c - 0x20) + 0o40) &&& 0o77) ∧
    (∀ (c1 c2 c3 c4 c5 c6 : Nat) (t : List Nat),
        genASCIIgo POp.SIXBIT (c1 :: c2 :: c3 :: c4 :: c5 :: c6 :: t) 0 0 0 =
          packMSB POp.SIXBIT 30 [c1, c2, c3, c4, c5, c6] :: genASCIIgo POp.SIXBIT t 0 0 0) ∧
    genASCIIrun POp.SIXBIT "ab" =
      [((65 + 0o40) &&& 0o77) * 2 ^ 30 + ((66 + 0o40) &&& 0o77) * 2 ^ 24] := by
  refine ⟨?_, ?_, by decide⟩
  · intro c h1 h2
    interval_cases c <;> decide
  · intro c1 c2 c3 c4 c5 c6 t
    simp [genASCIIgo, packMSB]
    constructor
    · ring
    · exact genASCIIgo_resetState POp.SIXBIT t _ 0 _ 0

/-- Claim C8 witness: the lower-case code of 'a' (0x61) folds to 'A' before
the SIXBIT bias and mask. -/
theorem claimC8_witness :
    convChar POp.SIXBIT 97 = ((97 - 0x20) + 0o40) &&& 0o77 :=
  claimC8_sixbitPacking.1 97 (by decide) (by decide)

/-- Running a concatenation of operation lists is running them in
sequence. -/
theorem mrun_append (a b : List SOp) (st : MState) :
    mrun (a ++ b) st = (mrun a st).bind (mrun b) := by
  induction a generalizing st with
  | nil => simp [mrun, Except.bind]
  | cons op t ih =>
    simp only [List.cons_append, mrun]
    cases h : mstep op st with
    | error e => simp [Except.bind]
    | ok st2 => simp [Except.bind, ih]

/-- A successful pop restores the fields saved in the top frame and drops
exactly that frame. -/
theorem popScope_stack (stM st2 : MState) (fr : MScope) (rest : List MScope)
    (hs : stM.stackScopes = fr :: rest) (h : popScope stM = .ok st2) :
    st2.stackScopes = rest ∧ st2.aWords = fr.aWords ∧ st2.aFixups = fr.aFixups ∧
    st2.nLocation = fr.nLocation ∧ st2.nLocationScope = fr.nLocationScope := by
  unfold popScope at h
  rw [hs] at h
  dsimp only at h
  cases hn : fr.name with
  | none =>
    rw [hn] at h
    dsimp only at h
    split at h
    · cases h
    · cases h
      exact ⟨rfl, rfl, rfl, rfl, rfl⟩
  | some nm =>
    rw [hn] at h
    dsimp only at h
    split at h
    · cases h
    · cases h
      exact ⟨rfl, rfl, rfl, rfl, rfl⟩

/-- When the scope invariant holds for the frame below, a pop succeeds and
restores the saved fields. -/
theorem popScope_ok (stM : MState) (fr : MScope) (rest : List MScope)
    (hs : stM.stackScopes = fr :: rest)
    (hok : rest = [] → fr.nLocationScope = none) :
    ∃ st2, popScope stM = .ok st2 ∧ st2.stackScopes = rest ∧ st2.aWords = fr.aWords ∧
      st2.aFixups = fr.aFixups ∧ st2.nLocation = fr.nLocation ∧
      st2.nLocationScope = fr.nLocationScope := by
  have hcond : ¬(rest = [] ∧ fr.nLocationScope ≠ none) := by
    rintro ⟨h1, h2⟩
    exact h2 (hok h1)
  unfold popScope
  rw [hs]
  dsimp only
  cases hn : fr.name with
  | none =>
    dsimp only
    rw [if_neg hcond]
    exact ⟨_, rfl, rfl, rfl, rfl, rfl, rfl⟩
  | some nm =>
    dsimp only
    rw [if_neg hcond]
    exact ⟨_, rfl, rfl, rfl, rfl, rfl, rfl⟩

/-- A balanced sequence of scope operations leaves the scope stack exactly
as it found it. -/
theorem balStack (ops : List SOp) (hb : BalOps ops) :
    ∀ st st', mrun ops st = .ok st' → st'.stackScopes = st.stackScopes := by
  induction hb with
  | nil =>
    intro st st' h
    simp only [mrun] at h
    cases h
    rfl
  | emit v f t hbt ih =>
    intro st st' h
    simp only [mrun, mstep, Except.bind] at h
    rw [ih _ _ h]
    rfl
  | nest n inner outer hbi hbo ihi iho =>
    intro st st' h
    simp only [List.cons_append, mrun, mstep, Except.bind] at h
    rw [show inner.append (SOp.pop :: outer) = inner ++ SOp.pop :: outer from rfl,
      mrun_append] at h
    cases hmid : mrun inner (pushScope st n) with
    | error e => rw [hmid] at h; cases h
    | ok stM =>
      rw [hmid] at h
      simp only [Except.bind, mrun] at h
      cases hpop : mstep SOp.pop stM with
      | error e => rw [hpop] at h; cases h
      | ok st2 =>
        rw [hpop] at h
        simp only [Except.bind] at h
        have hM : stM.stackScopes = (pushScope st n).stackScopes := ihi _ _ hmid
        have hps : (pushScope st n).stackScopes =
            ({ name := n, aWords := st.aWords, aFixups := st.aFixups,
               nLocation := st.nLocation, nLocationScope := st.nLocationScope,
               nLine := st.nLine } : MScope) :: st.stackScopes := rfl
        have h2 : st2.stackScopes = st.stackScopes :=
          (popScope_stack stM st2 _ _ (hM.trans hps) (by simpa [mstep] using hpop)).1
        rw [iho _ _ h, h2]

/-- Claim C9: pushing a scope frame and later popping it (after any
balanced sequence of emissions and nested scopes) restores the outer word
buffer, fixup list, location counter and scope location exactly to their
push-time values; inside the scope the location counter starts at 0; pops
are strictly LIFO (a pop removes exactly the newest frame); popping with
an empty stack is a fatal error; and a non-empty scope stack at end of
input is a fatal error. -/
theorem claimC9_scopeDiscipline :
    (∀ (st : MState) (name : Option String) (ops : List SOp) (st' : MState),
        (st.stackScopes = [] → st.nLocationScope = none) →
        BalOps ops →
        mrun ops (pushScope st name) = .ok st' →
        ∃ st'', popScope st' = .ok st'' ∧
          st''.aWords = st.aWords ∧ st''.aFixups = st.aFixups ∧
          st''.nLocation = st.nLocation ∧ st''.nLocationScope = st.nLocationScope ∧
          st''.stackScopes = st.stackScopes) ∧
    (∀ (st : MState) (name : Option String), (pushScope st name).nLocation = 0) ∧
    (∀ st : MState, st.stackScopes = [] →
        popScope st = .error (m10error st.nLine "scope nesting error")) ∧
    (∀ (st st' : MState), popScope st = .ok st' →
        ∃ fr rest, st.stackScopes = fr :: rest ∧ st'.stackScopes = rest) ∧
    (∀ st : MState, st.stackScopes ≠ [] → ∃ msg, scopeEndCheck st = .error msg) := by
  refine ⟨?_, ?_, ?_, ?_, ?_⟩
  · intro st name ops st' hwf hb hrun
    have hstack : st'.stackScopes = (pushScope st name).stackScopes :=
      balStack ops hb _ _ hrun
    have hps : (pushScope st name).stackScopes =
        ({ name := name, aWords := st.aWords, aFixups := st.aFixups,
           nLocation := st.nLocation, nLocationScope := st.nLocationScope,
           nLine := st.nLine } : MScope) :: st.stackScopes := rfl
    obtain ⟨st2, hpop, hs, hw, hf, hn, hsc⟩ :=
      popScope_ok st' _ st.stackScopes (hstack.trans hps) hwf
    exact ⟨st2, hpop, hw, hf, hn, hsc, hs⟩
  · intro st name
    rfl
  · intro st h
    unfold popScope
    rw [h]
  · intro st st' h
    cases hs : st.stackScopes with
    | nil =>
      unfold popScope at h
      rw [hs] at h
      cases h
    | cons fr rest =>
      exact ⟨fr, rest, rfl, (popScope_stack st st' fr rest hs h).1⟩
  · intro st h
    unfold scopeEndCheck
    split
    · exact absurd (by assumption) h
    · exact ⟨_, rfl⟩

/-- Claim C9 witness: the immediate pop of a freshly pushed anonymous scope
on the empty state restores all four saved fields. -/
theorem claimC9_witness :
    ∃ st'', popScope (pushScope emptyM none) = .ok st'' ∧
      st''.aWords = emptyM.aWords ∧ st''.aFixups = emptyM.aFixups ∧
      st''.nLocation = emptyM.nLocation ∧ st''.nLocationScope = emptyM.nLocationScope ∧
      st''.stackScopes = emptyM.stackScopes :=
  claimC9_scopeDiscipline.1 emptyM none [] (pushScope emptyM none)
    (fun _ => rfl) BalOps.nil rfl
